import Mathlib

/-!
# FetchXML query builder: shallow embedding and verification

This file embeds `src/xmlquerybuilder/xml_query_builder.py` (class
`XMLQueryBuilder`) in Lean and proves properties of the embedding.

The Python code manipulates `xml.etree.ElementTree` element trees.  An
element is modelled as a tag, an ordered attribute list (Python dicts
preserve insertion order) and an ordered child list.  The builder never
creates text content, so the model carries no text nodes.
-/

/-- An XML element: tag, ordered attribute list, ordered children.
Models `xml.etree.ElementTree.Element` restricted to element-only content
(the builder never sets `.text` or `.tail`). -/
inductive Elem where
  | mk (tag : String) (attrib : List (String × String)) (children : List Elem)

/-- Tag of an element. -/
def Elem.tag : Elem → String
  | .mk t _ _ => t

/-- Attribute list of an element. -/
def Elem.attrib : Elem → List (String × String)
  | .mk _ a _ => a

/-- Children of an element. -/
def Elem.children : Elem → List Elem
  | .mk _ _ c => c

mutual

/-- Boolean structural equality on elements. -/
def Elem.beq : Elem → Elem → Bool
  | .mk t1 a1 c1, .mk t2 a2 c2 => t1 == t2 && a1 == a2 && beqChildren c1 c2

/-- Boolean structural equality on child lists. -/
def beqChildren : List Elem → List Elem → Bool
  | [], [] => true
  | x :: xs, y :: ys => Elem.beq x y && beqChildren xs ys
  | _, _ => false

end

/-- Mutual induction over the nested tree structure: a property of elements
together with a property of child lists. -/
theorem elem_mutual_ind (P : Elem → Prop) (Q : List Elem → Prop)
    (h1 : ∀ t a cs, Q cs → P (.mk t a cs)) (h2 : Q [])
    (h3 : ∀ c cs, P c → Q cs → Q (c :: cs)) : (∀ e, P e) ∧ (∀ es, Q es) := by
  have he : ∀ e, P e := fun e => Elem.rec h1 h2 h3 e
  exact ⟨he, fun es => List.rec h2 (fun c cs ih => h3 c cs (he c) ih) es⟩

/-- `Elem.beq` decides structural equality. -/
theorem Elem.beq_iff_eq : ∀ e e2, Elem.beq e e2 = true ↔ e = e2 := by
  have h := elem_mutual_ind
    (fun e => ∀ e2, Elem.beq e e2 = true ↔ e = e2)
    (fun es => ∀ es2, beqChildren es es2 = true ↔ es = es2)
    ?_ ?_ ?_
  · exact h.1
  · intro t a cs ih e2
    cases e2 with
    | mk t2 a2 c2 =>
      simp [Elem.beq, Elem.mk.injEq, Bool.and_eq_true, beq_iff_eq, ih c2, and_assoc]
  · intro es2
    cases es2 <;> simp [beqChildren]
  · intro c cs ihc ihcs es2
    cases es2 <;> simp [beqChildren, Bool.and_eq_true, ihc, ihcs]

instance : DecidableEq Elem := fun a b => decidable_of_iff _ (Elem.beq_iff_eq a b)

/-- Python values that flow into `str(value)` in `add_filter`. -/
inductive Value where
  | vstr (s : String)
  | vint (n : Int)
  | vbool (b : Bool)
deriving DecidableEq

/-- Python's `str()` on the modelled values. -/
def Value.pyStr : Value → String
  | .vstr s => s
  | .vint n => toString n
  | .vbool b => if b then "True" else "False"

/-- State of an `XMLQueryBuilder` during executions that use only the
mutating builder calls (`select`, `link_entity`, `add_filter`, `add_order`,
`add_aggregate`, `add_group_by`).  In such executions `self.entity` is
permanently the sole child of `self.root` (created in `__init__`), so the
state is captured by the entity's child list plus the bookkeeping fields.
`hasFilter` models the truthiness test `if not self.filters:` — the only
use the source makes of the `self.filters` list. -/
structure XMLQueryBuilder where
  root_entity_name : String
  entityChildren : List Elem
  select_attributes : List String
  hasFilter : Bool
deriving DecidableEq

/-- `XMLQueryBuilder.__init__`: root `fetch` element with a single `entity`
child named after the root entity, and empty bookkeeping lists. -/
def XMLQueryBuilder.init (root_entity : String) : XMLQueryBuilder :=
  { root_entity_name := root_entity
    entityChildren := []
    select_attributes := []
    hasFilter := false }

/-- The `self.entity` element determined by a builder-calls-only state. -/
def XMLQueryBuilder.entityElem (b : XMLQueryBuilder) : Elem :=
  .mk "entity" [("name", b.root_entity_name)] b.entityChildren

/-- The `self.root` element determined by a builder-calls-only state. -/
def XMLQueryBuilder.rootElem (b : XMLQueryBuilder) : Elem :=
  .mk "fetch" [] [b.entityElem]

/-- `XMLQueryBuilder.select`.  `attributes == ('ALL',)` appends a single
`all-attributes` element; otherwise the loop body appends one `attribute`
element per name and — inside the loop, exactly as in the source — extends
`self.select_attributes` with the whole argument tuple each iteration. -/
def XMLQueryBuilder.select (b : XMLQueryBuilder) (attributes : List String) :
    XMLQueryBuilder :=
  if attributes = ["ALL"] then
    { b with entityChildren := b.entityChildren ++ [Elem.mk "all-attributes" [] []] }
  else
    attributes.foldl
      (fun st attr =>
        { st with
            entityChildren := st.entityChildren ++ [Elem.mk "attribute" [("name", attr)] []]
            select_attributes := st.select_attributes ++ attributes })
      b

/-- Python truthiness defaulting `x if x else d` for an optional string
argument: `None` and the empty string are falsy. -/
def orDefault (o : Option String) (d : String) : String :=
  match o with
  | some s => if s = "" then d else s
  | none => d

/-- `XMLQueryBuilder.link_entity`: appends a `link-entity` element with the
source's truthiness-based defaults. -/
def XMLQueryBuilder.link_entity (b : XMLQueryBuilder) (name : String)
    (aliasArg from_field to_field link_type : Option String) : XMLQueryBuilder :=
  { b with entityChildren := b.entityChildren ++
      [Elem.mk "link-entity"
        [("name", name),
         ("alias", orDefault aliasArg name),
         ("from", orDefault from_field (name ++ "id")),
         ("to", orDefault to_field (name ++ "id")),
         ("link-type", orDefault link_type "inner")] []] }

/-- The `condition` element built by `add_filter`. -/
def condElem (attr operatorName value : String) : Elem :=
  .mk "condition" [("attribute", attr), ("operator", operatorName), ("value", value)] []

/-- Appends `cond` to the child list of the first `filter`-tagged element.
In builder-calls-only executions `self.filter_root` is the unique
`filter`-tagged child of the entity (only `add_filter` creates one, at most
once), so appending through the alias is appending to that child. -/
def appendCondToFilter (cond : Elem) : List Elem → List Elem
  | [] => []
  | c :: rest =>
    if c.tag = "filter" then Elem.mk c.tag c.attrib (c.children ++ [cond]) :: rest
    else c :: appendCondToFilter cond rest

/-- `XMLQueryBuilder.add_filter`: lazily creates the single
`filter type="and"` child on first use, then appends one `condition` child
carrying the attribute, the operator and `str(value)`. -/
def XMLQueryBuilder.add_filter (b : XMLQueryBuilder)
    (attr operatorName : String) (value : Value) : XMLQueryBuilder :=
  let b' :=
    if b.hasFilter then b
    else
      { b with
          entityChildren := b.entityChildren ++ [Elem.mk "filter" [("type", "and")] []]
          hasFilter := true }
  { b' with entityChildren :=
      appendCondToFilter (condElem attr operatorName value.pyStr) b'.entityChildren }

/-- `XMLQueryBuilder.add_order`: appends an `order` element. -/
def XMLQueryBuilder.add_order (b : XMLQueryBuilder)
    (attr : String) (descending : Bool) : XMLQueryBuilder :=
  { b with entityChildren := b.entityChildren ++
      [Elem.mk "order"
        [("attribute", attr),
         ("descending", if descending then "true" else "false")] []] }

/-- `XMLQueryBuilder.add_aggregate`: appends an `attribute` element carrying
`name`, `alias` and `aggregate`. -/
def XMLQueryBuilder.add_aggregate (b : XMLQueryBuilder)
    (attr aliasArg aggregate_type : String) : XMLQueryBuilder :=
  { b with entityChildren := b.entityChildren ++
      [Elem.mk "attribute"
        [("name", attr), ("alias", aliasArg), ("aggregate", aggregate_type)] []] }

/-- `XMLQueryBuilder.add_group_by`: appends one `attribute` element with
`groupby="true"` per name. -/
def XMLQueryBuilder.add_group_by (b : XMLQueryBuilder) (attributes : List String) :
    XMLQueryBuilder :=
  attributes.foldl
    (fun st attr =>
      { st with entityChildren := st.entityChildren ++
          [Elem.mk "attribute" [("name", attr), ("groupby", "true")] []] })
    b

/-- One mutating builder call. -/
inductive Op where
  | select (attributes : List String)
  | link_entity (name : String) (aliasArg from_field to_field link_type : Option String)
  | add_filter (attr operatorName : String) (value : Value)
  | add_order (attr : String) (descending : Bool)
  | add_aggregate (attr aliasArg aggregate_type : String)
  | add_group_by (attributes : List String)

/-- Dispatch one builder call. -/
def runOp (b : XMLQueryBuilder) : Op → XMLQueryBuilder
  | .select attrs => b.select attrs
  | .link_entity n a f t lt => b.link_entity n a f t lt
  | .add_filter a o v => b.add_filter a o v
  | .add_order a d => b.add_order a d
  | .add_aggregate a al t => b.add_aggregate a al t
  | .add_group_by attrs => b.add_group_by attrs

/-- Run a sequence of builder calls left to right. -/
def runOps (b : XMLQueryBuilder) (ops : List Op) : XMLQueryBuilder :=
  ops.foldl runOp b

/-- Serialization of one attribute value, character by character.  Models
`xml.etree.ElementTree._escape_attrib`, which escapes the ampersand first
and then `<`, `>`, `"`, carriage return, newline and tab — equivalent to
this per-character map. -/
def escapeAttribChar (c : Char) : List Char :=
  if c = '&' then "&amp;".data
  else if c = '<' then "&lt;".data
  else if c = '>' then "&gt;".data
  else if c = '"' then "&quot;".data
  else if c = '\r' then "&#13;".data
  else if c = '\n' then "&#10;".data
  else if c = '\t' then "&#09;".data
  else [c]

/-- Escape a whole attribute value. -/
def escList : List Char → List Char
  | [] => []
  | c :: cs => escapeAttribChar c ++ escList cs

/-- Serialize an attribute list: one space before each `key="value"`. -/
def serializeAttrs : List (String × String) → List Char
  | [] => []
  | (k, v) :: rest =>
    ' ' :: (k.data ++ '=' :: '"' :: (escList v.data ++ '"' :: serializeAttrs rest))

mutual

/-- Models `xml.etree.ElementTree.tostring(elem, encoding='unicode')` on
element-only trees: `<tag k="v" />` for childless elements (note the space
before the slash, as ElementTree writes it) and
`<tag k="v">children</tag>` otherwise. -/
def serializeElem : Elem → List Char
  | .mk tag attrib [] =>
    '<' :: (tag.data ++ serializeAttrs attrib ++ [' ', '/', '>'])
  | .mk tag attrib (c :: cs) =>
    '<' :: (tag.data ++ serializeAttrs attrib ++ '>' ::
      (serializeElems (c :: cs) ++ '<' :: '/' :: (tag.data ++ ['>'])))

/-- Serialize a child list in order. -/
def serializeElems : List Elem → List Char
  | [] => []
  | e :: es => serializeElem e ++ serializeElems es

end


/-- XML whitespace. -/
def isXmlWs (c : Char) : Bool :=
  c = ' ' || c = '\t' || c = '\r' || c = '\n'

/-- Drop leading XML whitespace. -/
def skipWs : List Char → List Char
  | [] => []
  | c :: rest => if isXmlWs c then skipWs rest else c :: rest

/-- First character of an XML name (ASCII fragment, as used here). -/
def isNameStart (c : Char) : Bool :=
  c.isAlpha || c = '_' || c = ':'

/-- Subsequent character of an XML name (ASCII fragment). -/
def isNameChar (c : Char) : Bool :=
  isNameStart c || c.isDigit || c = '-' || c = '.'

/-- Characters legal in XML 1.0 documents; the expat parser underlying both
`ET.fromstring` and `minidom.parseString` rejects all others. -/
def validXmlChar (c : Char) : Bool :=
  c = '\t' || c = '\n' || c = '\r' ||
  (0x20 ≤ c.toNat && c.toNat ≤ 0xD7FF) ||
  (0xE000 ≤ c.toNat && c.toNat ≤ 0xFFFD) ||
  (0x10000 ≤ c.toNat && c.toNat ≤ 0x10FFFF)

/-- Parse an XML name: a name-start character followed by name characters. -/
def parseName : List Char → Option (List Char × List Char)
  | [] => none
  | c :: rest =>
    if isNameStart c then some (c :: rest.takeWhile isNameChar, rest.dropWhile isNameChar)
    else none

/-- Decode a decimal character reference body (after `&#`): digits then
`;`.  The referenced code point must be a scalar value and a legal XML
character, as expat requires. -/
def parseDecRef (s : List Char) : Option (Char × List Char) :=
  let ds := s.takeWhile Char.isDigit
  match s.dropWhile Char.isDigit with
  | ';' :: rest =>
    if ds = [] then none
    else
      let n := ds.foldl (fun a c => a * 10 + (c.toNat - 48)) 0
      if (n < 0xD800 || (0xE000 ≤ n && n < 0x110000)) && validXmlChar (Char.ofNat n) then
        some (Char.ofNat n, rest)
      else none
  | _ => none

/-- Decode one entity or character reference (the input starts after `&`).
The five predefined entities and decimal character references cover every
reference the serializer emits; hexadecimal references are outside the
fragment exercised here and are rejected. -/
def decodeRef : List Char → Option (Char × List Char)
  | 'a' :: 'm' :: 'p' :: ';' :: rest => some ('&', rest)
  | 'l' :: 't' :: ';' :: rest => some ('<', rest)
  | 'g' :: 't' :: ';' :: rest => some ('>', rest)
  | 'q' :: 'u' :: 'o' :: 't' :: ';' :: rest => some ('"', rest)
  | 'a' :: 'p' :: 'o' :: 's' :: ';' :: rest => some ('\'', rest)
  | '#' :: rest => parseDecRef rest
  | _ => none

/-- Parse an attribute value up to the closing quote `q`, decoding
references; expat rejects a raw `<` or an illegal character here. -/
def parseAttValue (q : Char) : Nat → List Char → Option (List Char × List Char)
  | 0, _ => none
  | _ + 1, [] => none
  | fuel + 1, c :: rest =>
    if c = q then some ([], rest)
    else if c = '&' then
      match decodeRef rest with
      | some (ch, rest2) =>
        match parseAttValue q fuel rest2 with
        | some (v, r) => some (ch :: v, r)
        | none => none
      | none => none
    else if c = '<' then none
    else if validXmlChar c then
      match parseAttValue q fuel rest with
      | some (v, r) => some (c :: v, r)
      | none => none
    else none

/-- Parse a (possibly empty) attribute list; stops before the first
non-name character after the skipped whitespace and returns the input from
that character on. -/
def parseAttrs : Nat → List Char → Option (List (String × String) × List Char)
  | 0, _ => none
  | fuel + 1, s =>
    let s1 := skipWs s
    match parseName s1 with
    | none => some ([], s1)
    | some (nm, rest) =>
      match skipWs rest with
      | '=' :: rest2 =>
        match skipWs rest2 with
        | q :: rest3 =>
          if q = '"' || q = '\'' then
            match parseAttValue q (rest3.length + 1) rest3 with
            | some (v, rest4) =>
              match parseAttrs fuel rest4 with
              | some (attrs, r) => some ((String.mk nm, String.mk v) :: attrs, r)
              | none => none
            | none => none
          else none
        | [] => none
      | _ => none

mutual

/-- Parse one element: start tag, attributes, then either `/>` or child
content followed by the matching end tag.  Together with `parseChildren`
this models expat (as exposed through `ET.fromstring`) restricted to
element-only content: character data between tags is outside the fragment
the builder and the claims exercise, and is rejected rather than stored,
since `Elem` carries no text. -/
def parseElem : Nat → List Char → Option (Elem × List Char)
  | 0, _ => none
  | fuel + 1, s =>
    match s with
    | '<' :: rest =>
      match parseName rest with
      | none => none
      | some (tagC, rest1) =>
        match parseAttrs (rest1.length + 1) rest1 with
        | none => none
        | some (attrs, rest2) =>
          match rest2 with
          | '/' :: '>' :: rest3 => some (Elem.mk (String.mk tagC) attrs [], rest3)
          | '>' :: rest3 =>
            match parseChildren fuel rest3 with
            | none => none
            | some (cs, rest4) =>
              match rest4 with
              | '<' :: '/' :: rest5 =>
                match parseName rest5 with
                | some (closeC, rest6) =>
                  if closeC = tagC then
                    match skipWs rest6 with
                    | '>' :: rest7 => some (Elem.mk (String.mk tagC) attrs cs, rest7)
                    | _ => none
                  else none
                | none => none
              | _ => none
          | _ => none
    | _ => none

/-- Parse a sequence of sibling elements, stopping at an end tag. -/
def parseChildren : Nat → List Char → Option (List Elem × List Char)
  | 0, _ => none
  | fuel + 1, s =>
    match s with
    | '<' :: c2 :: rest2 =>
      if c2 = '/' then some ([], '<' :: c2 :: rest2)
      else
        match parseElem fuel ('<' :: c2 :: rest2) with
        | none => none
        | some (e, rest) =>
          match parseChildren fuel rest with
          | none => none
          | some (es, rest3) => some (e :: es, rest3)
    | _ => none

end

/-- Models `xml.etree.ElementTree.fromstring` on the element-only fragment:
optional leading whitespace, one root element, optional trailing
whitespace; `none` models raising `xml.etree.ElementTree.ParseError`. -/
def fromstring (s : String) : Option Elem :=
  let cs := skipWs s.data
  match parseElem (cs.length + 1) cs with
  | some (e, rest) =>
    match skipWs rest with
    | [] => some e
    | _ => none
  | none => none

/-- The children of an element are smaller than the element. -/
theorem Elem.sizeOf_children_lt (c : Elem) : sizeOf c.children < sizeOf c := by
  cases c with
  | mk t a cs => simp [Elem.children]

/-- First element tagged `entity` in pre-order among the elements of a
list and their descendants.  Applied to `root.children` this models
`root.find(".//entity")`, which searches all descendants of `root` in
document order and excludes `root` itself. -/
def findEntityInList : List Elem → Option Elem
  | [] => none
  | c :: rest =>
    if c.tag = "entity" then some c
    else
      match findEntityInList c.children with
      | some e => some e
      | none => findEntityInList rest
termination_by l => sizeOf l
decreasing_by
  all_goals have := Elem.sizeOf_children_lt c
  all_goals simp_wf
  all_goals omega

mutual

/-- Does the tree contain an element with this tag (root included)? -/
def containsTag (t : String) : Elem → Bool
  | .mk tag _ cs => tag == t || containsTagList t cs

/-- Does any tree in the list contain an element with this tag? -/
def containsTagList (t : String) : List Elem → Bool
  | [] => false
  | c :: cs => containsTag t c || containsTagList t cs

end

/-- The builder state as the source stores it: the `self.root` tree, the
`self.entity` reference (`none` models Python `None`, as produced by a
failed `find`), and the bookkeeping fields the load path leaves untouched.
Used for the operations that can replace the tree wholesale. -/
structure RawState where
  root_entity_name : String
  root : Elem
  entity : Option Elem
  select_attributes : List String
  hasFilter : Bool
deriving DecidableEq

/-- View a builder-calls-only state as a raw state: `self.root` is the
`fetch` element and `self.entity` its sole `entity` child. -/
def XMLQueryBuilder.toRaw (b : XMLQueryBuilder) : RawState :=
  { root_entity_name := b.root_entity_name
    root := b.rootElem
    entity := some b.entityElem
    select_attributes := b.select_attributes
    hasFilter := b.hasFilter }

/-- Python exceptions the load paths can raise.
`parseError` models `xml.etree.ElementTree.ParseError` from `fromstring`;
`structuralError` models the `AttributeError` raised in `from_fetch_xml`
when `find(".//entity")` returns `None` and its `.attrib` is read — the
failure mode for well-formed input with no `entity` element, which the
specification's error taxonomy calls a StructuralError;
`keyError` models the `KeyError` when the entity lacks a `name` attribute. -/
inductive PyError where
  | parseError
  | structuralError
  | keyError
deriving DecidableEq

/-- `XMLQueryBuilder.add_fetch_xml`: parse the string (a parse failure
raises before anything is assigned, so the caller's state is untouched and
the error is the whole result), then replace `self.root` with the parsed
root and repoint `self.entity` at the first `entity` descendant. -/
def add_fetch_xml (b : RawState) (fetch_xml_string : String) :
    Except PyError RawState :=
  match fromstring fetch_xml_string with
  | none => .error .parseError
  | some r => .ok { b with root := r, entity := findEntityInList r.children }

/-- First binding of a key in an attribute list (Python `dict` lookup). -/
def lookupAttr : List (String × String) → String → Option String
  | [], _ => none
  | (k, v) :: rest, key => if k = key then some v else lookupAttr rest key

/-- `XMLQueryBuilder.from_fetch_xml`: parse, read the `name` attribute of
the first `entity` descendant (raising if there is none), construct a
fresh builder with that name and load the same string into it. -/
def from_fetch_xml (fetch_xml_string : String) : Except PyError RawState :=
  match fromstring fetch_xml_string with
  | none => .error .parseError
  | some r =>
    match findEntityInList r.children with
    | none => .error .structuralError
    | some ent =>
      match lookupAttr ent.attrib "name" with
      | none => .error .keyError
      | some entity_name =>
        add_fetch_xml (XMLQueryBuilder.init entity_name).toRaw fetch_xml_string

mutual

/-- Pretty writer for one element at an indent, modelling
`xml.dom.minidom.toprettyxml` (tab indent, one element per line) on the
element-only fragment; only its determinism matters for the claims. -/
def prettyElem : Elem → List Char → List Char
  | .mk tag attrib [], ind =>
    ind ++ '<' :: (tag.data ++ serializeAttrs attrib ++ ['/', '>', '\n'])
  | .mk tag attrib (c :: cs), ind =>
    ind ++ '<' :: (tag.data ++ serializeAttrs attrib ++ '>' :: '\n' ::
      (prettyElems (c :: cs) ('\t' :: ind) ++ ind ++ '<' :: '/' :: (tag.data ++ ['>', '\n'])))

/-- Pretty writer for a child list. -/
def prettyElems : List Elem → List Char → List Char
  | [], _ => []
  | e :: es, ind => prettyElem e ind ++ prettyElems es ind

end

/-- The XML declaration line `minidom.toprettyxml` emits. -/
def prettyHeader : List Char :=
  "<?xml version=\"1.0\" ?>\n".data

/-- `XMLQueryBuilder.to_string`: serialize `self.root`; with `pretty=True`
the compact text is re-parsed by `xml.dom.minidom.parseString` (which can
raise on text that is not well-formed XML — modelled by `none`) and
pretty-printed.  The method assigns no field, so the state comes back
unchanged; the pair makes that explicit. -/
def to_string (b : RawState) (pretty : Bool) : Option String × RawState :=
  let xml_str := String.mk (serializeElem b.root)
  if pretty then
    match fromstring xml_str with
    | none => (none, b)
    | some dom => (some (String.mk (prettyHeader ++ prettyElem dom [])), b)
  else (some xml_str, b)

/-- C10: calling `select` with zero arguments is a no-op: the argument
tuple is neither `('ALL',)` nor has elements to loop over, so no node is
appended, the recorded attribute list is unchanged, and the builder
returned is the receiver itself. -/
theorem select_empty_is_noop (b : XMLQueryBuilder) : b.select [] = b := by
  simp [XMLQueryBuilder.select]

/-- C7: `select("ALL")` appends exactly one `all-attributes` element (with
no attributes) to the entity's children and no `attribute` element. -/
theorem select_all_single_marker (b : XMLQueryBuilder) :
    (b.select ["ALL"]).entityChildren =
      b.entityChildren ++ [Elem.mk "all-attributes" [] []] := by
  simp [XMLQueryBuilder.select]

/-- C5: `link_entity(name)` with no other arguments appends one
`link-entity` element with `alias=name`, `from=name+"id"`, `to=name+"id"`,
`link-type="inner"`; in particular `link_entity("contact")` yields
`alias="contact" from="contactid" to="contactid" link-type="inner"`. -/
theorem link_entity_defaults (b : XMLQueryBuilder) (name : String) :
    (b.link_entity name none none none none).entityChildren =
      b.entityChildren ++
        [Elem.mk "link-entity"
          [("name", name), ("alias", name), ("from", name ++ "id"),
           ("to", name ++ "id"), ("link-type", "inner")] []] ∧
    ((XMLQueryBuilder.init "account").link_entity "contact" none none none
        none).entityChildren =
      [Elem.mk "link-entity"
        [("name", "contact"), ("alias", "contact"), ("from", "contactid"),
         ("to", "contactid"), ("link-type", "inner")] []] := by
  constructor
  · simp [XMLQueryBuilder.link_entity, orDefault]
  · decide

/-- C4 (divergence witness): `select("name", "accountid")` appends the two
`attribute` elements as specified, but because
`self.select_attributes.extend(attributes)` sits inside the per-attribute
loop, the recorded list receives the whole argument tuple once per
argument: `["name", "accountid", "name", "accountid"]`, not
`["name", "accountid"]`. -/
theorem select_records_tuple_per_argument :
    ((XMLQueryBuilder.init "account").select ["name", "accountid"]).entityChildren =
      [Elem.mk "attribute" [("name", "name")] [],
       Elem.mk "attribute" [("name", "accountid")] []] ∧
    ((XMLQueryBuilder.init "account").select ["name", "accountid"]).select_attributes =
      ["name", "accountid", "name", "accountid"] := by
  constructor <;> decide

/-- C8: `to_string` assigns no field, so the builder state is returned
unchanged, and a second call with the same `pretty` flag on that state
yields the identical result. -/
theorem to_string_pure_and_repeatable (b : RawState) (pretty : Bool) :
    (to_string b pretty).2 = b ∧
    (to_string b pretty).1 = (to_string (to_string b pretty).2 pretty).1 := by
  cases pretty with
  | false => exact ⟨rfl, rfl⟩
  | true =>
    cases h : fromstring (String.mk (serializeElem b.root)) with
    | none => simp [to_string, h]
    | some dom => simp [to_string, h]

/-- A list of trees none of which contains an `entity` element yields no
find result. -/
theorem findEntityInList_eq_none :
    ∀ l : List Elem, containsTagList "entity" l = false → findEntityInList l = none := by
  have h := elem_mutual_ind
    (fun e => containsTag "entity" e = false →
      e.tag ≠ "entity" ∧ findEntityInList e.children = none)
    (fun l => containsTagList "entity" l = false → findEntityInList l = none)
    ?_ ?_ ?_
  · exact h.2
  · intro t a cs ih hc
    simp only [containsTag, Bool.or_eq_false_iff] at hc
    refine ⟨?_, ih hc.2⟩
    simpa [Elem.tag] using hc.1
  · intro _
    simp [findEntityInList]
  · intro c cs ihc ihcs hc
    simp only [containsTagList, Bool.or_eq_false_iff] at hc
    obtain ⟨htag, hchild⟩ := ihc hc.1
    simp [findEntityInList, htag, hchild, ihcs hc.2]

/-- C9: on well-formed input with no `entity` element anywhere,
`add_fetch_xml` succeeds: it replaces the root with the parsed tree and
silently sets the entity reference to `None`; no error is raised. -/
theorem add_fetch_xml_tolerates_missing_entity (b : RawState) (s : String) (r : Elem)
    (h1 : fromstring s = some r) (h2 : containsTag "entity" r = false) :
    add_fetch_xml b s = .ok { b with root := r, entity := none } := by
  have hnone : findEntityInList r.children = none := by
    apply findEntityInList_eq_none
    cases r with
    | mk t a cs =>
      simp only [containsTag, Bool.or_eq_false_iff] at h2
      simpa [Elem.children] using h2.2
  simp [add_fetch_xml, h1, hnone]

/-- C9 witness: loading `"<fetch></fetch>"` succeeds with `entity = None`. -/
theorem add_fetch_xml_tolerates_missing_entity_witness :
    fromstring "<fetch></fetch>" = some (Elem.mk "fetch" [] []) ∧
    containsTag "entity" (Elem.mk "fetch" [] []) = false ∧
    add_fetch_xml (XMLQueryBuilder.init "account").toRaw "<fetch></fetch>" =
      .ok { (XMLQueryBuilder.init "account").toRaw with
              root := Elem.mk "fetch" [] [], entity := none } :=
  ⟨by decide, by decide,
    add_fetch_xml_tolerates_missing_entity _ _ _ (by decide) (by decide)⟩

/-- C3: on well-formed input with no `entity` element, `from_fetch_xml`
fails with the structural error (the `AttributeError` raised when the
`name` attribute of the absent entity is dereferenced) and constructs no
builder. -/
theorem from_fetch_xml_missing_entity_fails (s : String) (r : Elem)
    (h1 : fromstring s = some r) (h2 : containsTag "entity" r = false) :
    from_fetch_xml s = .error .structuralError := by
  have hnone : findEntityInList r.children = none := by
    apply findEntityInList_eq_none
    cases r with
    | mk t a cs =>
      simp only [containsTag, Bool.or_eq_false_iff] at h2
      simpa [Elem.children] using h2.2
  simp [from_fetch_xml, h1, hnone]

/-- C3 witness: `from_fetch_xml("<fetch></fetch>")` fails structurally. -/
theorem from_fetch_xml_missing_entity_fails_witness :
    fromstring "<fetch></fetch>" = some (Elem.mk "fetch" [] []) ∧
    containsTag "entity" (Elem.mk "fetch" [] []) = false ∧
    from_fetch_xml "<fetch></fetch>" = .error .structuralError :=
  ⟨by decide, by decide,
    from_fetch_xml_missing_entity_fails "<fetch></fetch>" (Elem.mk "fetch" [] [])
      (by decide) (by decide)⟩

/-- C6: on input that is not well-formed XML, `add_fetch_xml` fails with a
parse error before assigning anything — in this state-passing embedding
the error result carries no new state, so the caller's previous root and
entity stand — and `from_fetch_xml` on the same input fails with the same
parse error, constructing nothing. -/
theorem parse_failure_raises_and_preserves (s : String) (h : fromstring s = none) :
    (∀ b : RawState, add_fetch_xml b s = .error .parseError) ∧
    from_fetch_xml s = .error .parseError := by
  refine ⟨fun b => ?_, ?_⟩ <;> simp [add_fetch_xml, from_fetch_xml, h]

/-- C6 witness: `"<not-xml"` is rejected by both entry points. -/
theorem parse_failure_raises_and_preserves_witness :
    fromstring "<not-xml" = none ∧
    add_fetch_xml (XMLQueryBuilder.init "account").toRaw "<not-xml" =
      .error .parseError ∧
    from_fetch_xml "<not-xml" = .error .parseError :=
  ⟨by decide,
    (parse_failure_raises_and_preserves "<not-xml" (by decide)).1 _,
    (parse_failure_raises_and_preserves "<not-xml" (by decide)).2⟩

/-- The `attribute` element appended per selected name. -/
def selAttrElem (a : String) : Elem := Elem.mk "attribute" [("name", a)] []

/-- The `attribute` element appended per group-by name. -/
def groupByElem (a : String) : Elem := Elem.mk "attribute" [("name", a), ("groupby", "true")] []

/-- Characterization of the non-`ALL` branch of `select`: one `attribute`
element per name in order; the filter flag and the entity name are
untouched. -/
theorem select_spec (attributes : List String) (h : attributes ≠ ["ALL"]) :
    ∀ b : XMLQueryBuilder,
      (b.select attributes).entityChildren =
        b.entityChildren ++ attributes.map selAttrElem ∧
      (b.select attributes).hasFilter = b.hasFilter ∧
      (b.select attributes).root_entity_name = b.root_entity_name := by
  have key : ∀ (l : List String) (b : XMLQueryBuilder),
      (l.foldl (fun st attr =>
        { st with
            entityChildren := st.entityChildren ++ [Elem.mk "attribute" [("name", attr)] []]
            select_attributes := st.select_attributes ++ attributes }) b).entityChildren =
        b.entityChildren ++ l.map selAttrElem ∧
      (l.foldl (fun st attr =>
        { st with
            entityChildren := st.entityChildren ++ [Elem.mk "attribute" [("name", attr)] []]
            select_attributes := st.select_attributes ++ attributes }) b).hasFilter =
        b.hasFilter ∧
      (l.foldl (fun st attr =>
        { st with
            entityChildren := st.entityChildren ++ [Elem.mk "attribute" [("name", attr)] []]
            select_attributes := st.select_attributes ++ attributes }) b).root_entity_name =
        b.root_entity_name := by
    intro l
    induction l with
    | nil => intro b; simp
    | cons a tl ih =>
      intro b
      obtain ⟨h1, h2, h3⟩ := ih
        { b with
            entityChildren := b.entityChildren ++ [Elem.mk "attribute" [("name", a)] []]
            select_attributes := b.select_attributes ++ attributes }
      refine ⟨?_, ?_, ?_⟩ <;>
        simp [List.foldl_cons, h1, h2, h3, selAttrElem]
  intro b
  have hne : ¬ attributes = ["ALL"] := h
  simpa [XMLQueryBuilder.select, hne] using key attributes b

/-- Characterization of `add_group_by`: one `groupby="true"` element per
name in order; filter flag and entity name untouched. -/
theorem add_group_by_spec :
    ∀ (l : List String) (b : XMLQueryBuilder),
      (b.add_group_by l).entityChildren = b.entityChildren ++ l.map groupByElem ∧
      (b.add_group_by l).hasFilter = b.hasFilter ∧
      (b.add_group_by l).root_entity_name = b.root_entity_name := by
  intro l
  induction l with
  | nil => intro b; simp [XMLQueryBuilder.add_group_by]
  | cons a tl ih =>
    intro b
    obtain ⟨h1, h2, h3⟩ := ih
      { b with entityChildren := b.entityChildren ++
          [Elem.mk "attribute" [("name", a), ("groupby", "true")] []] }
    refine ⟨?_, ?_, ?_⟩ <;>
      simp [XMLQueryBuilder.add_group_by, List.foldl_cons, groupByElem] <;>
      simp [XMLQueryBuilder.add_group_by] at h1 h2 h3 <;>
      simp [h1, h2, h3]

/-- The `condition` elements contributed by one builder call. -/
def Op.condOf : Op → List Elem
  | .add_filter a o v => [condElem a o v.pyStr]
  | _ => []

/-- The `condition` elements of all `add_filter` calls, in call order. -/
def filterConds (ops : List Op) : List Elem :=
  ops.foldr (fun op acc => op.condOf ++ acc) []

/-- The element predicate selecting `filter`-tagged children. -/
def isFilterTag (e : Elem) : Bool := e.tag == "filter"

/-- Invariant tying a builder-calls-only state to the conditions added so
far: the entity's `filter`-tagged children are exactly one `filter`
element of type `and` holding those conditions (none before the first
`add_filter`). -/
def FilterInv (b : XMLQueryBuilder) (conds : List Elem) : Prop :=
  b.entityChildren.filter isFilterTag =
    (if b.hasFilter then [Elem.mk "filter" [("type", "and")] conds] else []) ∧
  (b.hasFilter = false → conds = [])

/-- Appending a condition when no `filter`-tagged child precedes the fresh
filter element. -/
theorem appendCondToFilter_fresh (c : Elem) (attrs : List (String × String))
    (cs : List Elem) :
    ∀ l : List Elem, l.filter isFilterTag = [] →
      appendCondToFilter c (l ++ [Elem.mk "filter" attrs cs]) =
        l ++ [Elem.mk "filter" attrs (cs ++ [c])] := by
  intro l
  induction l with
  | nil =>
    intro _
    simp [appendCondToFilter, Elem.tag, Elem.attrib, Elem.children]
  | cons x xs ih =>
    intro hf
    rw [List.filter_cons] at hf
    by_cases hx : isFilterTag x
    · simp [hx] at hf
    · have hxs : xs.filter isFilterTag = [] := by
        simpa [hx] using hf
      have hxtag : ¬ x.tag = "filter" := by
        simpa [isFilterTag] using hx
      simp [appendCondToFilter, hxtag, ih hxs]

/-- Appending a condition when the unique `filter`-tagged child already
exists. -/
theorem appendCondToFilter_existing (c : Elem) (attrs : List (String × String))
    (cs : List Elem) :
    ∀ l : List Elem, l.filter isFilterTag = [Elem.mk "filter" attrs cs] →
      (appendCondToFilter c l).filter isFilterTag =
        [Elem.mk "filter" attrs (cs ++ [c])] := by
  intro l
  induction l with
  | nil => intro hf; simp at hf
  | cons x xs ih =>
    intro hf
    rw [List.filter_cons] at hf
    by_cases hx : isFilterTag x
    · simp only [hx, if_true] at hf
      have hx2 : x = Elem.mk "filter" attrs cs ∧ xs.filter isFilterTag = [] :=
        by simpa using hf
      obtain ⟨rfl, hxs⟩ := hx2
      have htag : (Elem.mk "filter" attrs cs).tag = "filter" := rfl
      simp [appendCondToFilter, htag, Elem.tag, Elem.attrib, Elem.children,
        List.filter_cons, isFilterTag, hxs]
    · have hxtag : ¬ x.tag = "filter" := by
        simpa [isFilterTag] using hx
      have hxs : xs.filter isFilterTag = [Elem.mk "filter" attrs cs] := by
        simpa [hx] using hf
      simp [appendCondToFilter, hxtag, List.filter_cons, hx, ih hxs]

/-- Mapped selection elements are never `filter`-tagged. -/
theorem filter_map_selAttr (l : List String) :
    (l.map selAttrElem).filter isFilterTag = [] := by
  induction l with
  | nil => rfl
  | cons a tl ih => simp [selAttrElem, isFilterTag, Elem.tag, List.filter_cons, ih]

/-- Mapped group-by elements are never `filter`-tagged. -/
theorem filter_map_groupBy (l : List String) :
    (l.map groupByElem).filter isFilterTag = [] := by
  induction l with
  | nil => rfl
  | cons a tl ih => simp [groupByElem, isFilterTag, Elem.tag, List.filter_cons, ih]

/-- Every builder call preserves the filter invariant, extending the
condition list exactly by the conditions the call contributes. -/
theorem filterInv_runOp (b : XMLQueryBuilder) (conds : List Elem) (op : Op)
    (h : FilterInv b conds) : FilterInv (runOp b op) (conds ++ op.condOf) := by
  obtain ⟨h1, h2⟩ := h
  cases op with
  | select attrs =>
    by_cases hall : attrs = ["ALL"]
    · subst hall
      refine ⟨?_, ?_⟩
      · simp only [runOp, Op.condOf, List.append_nil]
        rw [show ((XMLQueryBuilder.select b ["ALL"]).entityChildren) =
          b.entityChildren ++ [Elem.mk "all-attributes" [] []] from
            select_all_single_marker b]
        have hh : (XMLQueryBuilder.select b ["ALL"]).hasFilter = b.hasFilter := by
          simp [XMLQueryBuilder.select]
        rw [hh, List.filter_append, h1]
        simp [isFilterTag, Elem.tag]
      · simpa [runOp, XMLQueryBuilder.select, Op.condOf] using h2
    · obtain ⟨hc, hf, _⟩ := select_spec attrs hall b
      refine ⟨?_, ?_⟩
      · simp only [runOp, Op.condOf, List.append_nil, hc, hf,
          List.filter_append, h1, filter_map_selAttr, List.append_nil]
      · simp only [runOp, Op.condOf, List.append_nil, hf]
        exact h2
  | link_entity n a f t lt =>
    refine ⟨?_, ?_⟩
    · simp [runOp, XMLQueryBuilder.link_entity, Op.condOf, List.filter_append,
        h1, isFilterTag, Elem.tag, List.filter_cons]
    · simpa [runOp, XMLQueryBuilder.link_entity, Op.condOf] using h2
  | add_order a d =>
    refine ⟨?_, ?_⟩
    · simp [runOp, XMLQueryBuilder.add_order, Op.condOf, List.filter_append,
        h1, isFilterTag, Elem.tag, List.filter_cons]
    · simpa [runOp, XMLQueryBuilder.add_order, Op.condOf] using h2
  | add_aggregate a al t =>
    refine ⟨?_, ?_⟩
    · simp [runOp, XMLQueryBuilder.add_aggregate, Op.condOf, List.filter_append,
        h1, isFilterTag, Elem.tag, List.filter_cons]
    · simpa [runOp, XMLQueryBuilder.add_aggregate, Op.condOf] using h2
  | add_group_by attrs =>
    obtain ⟨hc, hf, _⟩ := add_group_by_spec attrs b
    refine ⟨?_, ?_⟩
    · simp only [runOp, Op.condOf, List.append_nil, hc, hf,
        List.filter_append, h1, filter_map_groupBy, List.append_nil]
    · simp only [runOp, Op.condOf, List.append_nil, hf]
      exact h2
  | add_filter a o v =>
    by_cases hb : b.hasFilter
    · have hfil : b.entityChildren.filter isFilterTag =
        [Elem.mk "filter" [("type", "and")] conds] := by
        simpa [hb] using h1
      refine ⟨?_, ?_⟩
      · simp only [runOp, XMLQueryBuilder.add_filter, hb, if_true, Op.condOf]
        simpa [hb] using
          appendCondToFilter_existing (condElem a o v.pyStr) _ _ b.entityChildren hfil
      · intro hcontra
        simp [runOp, XMLQueryBuilder.add_filter, hb] at hcontra
    · have hbf : b.hasFilter = false := by simpa using hb
      have hconds : conds = [] := h2 hbf
      have hfil : b.entityChildren.filter isFilterTag = [] := by
        simpa [hbf] using h1
      refine ⟨?_, ?_⟩
      · simp only [runOp, XMLQueryBuilder.add_filter, hbf, Op.condOf,
          Bool.false_eq_true, if_false]
        rw [appendCondToFilter_fresh (condElem a o v.pyStr) _ _ b.entityChildren hfil]
        simp [List.filter_append, hfil, isFilterTag, Elem.tag, List.filter_cons, hconds]
      · intro hcontra
        simp [runOp, XMLQueryBuilder.add_filter, hbf] at hcontra

/-- Running a call sequence extends the condition list by all conditions
of the sequence, in order. -/
theorem filterInv_runOps :
    ∀ (ops : List Op) (b : XMLQueryBuilder) (conds : List Elem),
      FilterInv b conds → FilterInv (runOps b ops) (conds ++ filterConds ops) := by
  intro ops
  induction ops with
  | nil => intro b conds h; simpa [runOps, filterConds] using h
  | cons op tl ih =>
    intro b conds h
    have step := filterInv_runOp b conds op h
    have rec := ih (runOp b op) (conds ++ op.condOf) step
    have : runOps b (op :: tl) = runOps (runOp b op) tl := by
      simp [runOps, List.foldl_cons]
    rw [this]
    simpa [filterConds, List.foldr_cons, List.append_assoc] using rec

/-- The fresh builder satisfies the invariant with no conditions. -/
theorem filterInv_init (name : String) : FilterInv (XMLQueryBuilder.init name) [] := by
  constructor
  · simp [XMLQueryBuilder.init]
  · intro _; rfl

/-- C2: over any sequence of builder calls containing at least one
`add_filter`, the entity has exactly one `filter`-tagged child; it carries
`type="and"` and holds one `condition` child per `add_filter` call, in
call order, with the call's attribute, operator and string-coerced value
(`filterConds` is exactly that list). -/
theorem single_filter_accumulates_conditions (name : String) (ops : List Op)
    (h : filterConds ops ≠ []) :
    (runOps (XMLQueryBuilder.init name) ops).entityChildren.filter isFilterTag =
      [Elem.mk "filter" [("type", "and")] (filterConds ops)] := by
  have hinv := filterInv_runOps ops (XMLQueryBuilder.init name) [] (filterInv_init name)
  obtain ⟨h1, h2⟩ := hinv
  by_cases hb : (runOps (XMLQueryBuilder.init name) ops).hasFilter
  · simpa [hb] using h1
  · exact absurd (h2 (by simpa using hb)) (by simpa using h)

/-- C2 witness: three `add_filter` calls interleaved with other calls
yield one `filter` node with the three conditions in order. -/
theorem single_filter_accumulates_conditions_witness :
    filterConds
        [Op.select ["name"], Op.add_filter "name" "eq" (.vstr "Contoso"),
         Op.add_filter "statecode" "eq" (.vint 0), Op.add_order "name" true,
         Op.add_filter "revenue" "gt" (.vint 5)] ≠ [] ∧
    (runOps (XMLQueryBuilder.init "account")
        [Op.select ["name"], Op.add_filter "name" "eq" (.vstr "Contoso"),
         Op.add_filter "statecode" "eq" (.vint 0), Op.add_order "name" true,
         Op.add_filter "revenue" "gt" (.vint 5)]).entityChildren.filter isFilterTag =
      [Elem.mk "filter" [("type", "and")]
        [condElem "name" "eq" "Contoso", condElem "statecode" "eq" "0",
         condElem "revenue" "gt" "5"]] := by
  constructor
  · decide
  · have h := single_filter_accumulates_conditions "account"
      [Op.select ["name"], Op.add_filter "name" "eq" (.vstr "Contoso"),
       Op.add_filter "statecode" "eq" (.vint 0), Op.add_order "name" true,
       Op.add_filter "revenue" "gt" (.vint 5)] (by decide)
    rw [h]
    decide

/-- Non-empty ASCII name: name-start character then name characters. -/
def goodNameChars : List Char → Bool
  | [] => false
  | c :: rest => isNameStart c && rest.all isNameChar

/-- A string usable as an XML tag or attribute key. -/
def goodName (s : String) : Bool := goodNameChars s.data

/-- A string whose characters are all legal in XML 1.0. -/
def goodText (s : String) : Bool := s.data.all validXmlChar

/-- Attribute lists with name keys and XML-legal values. -/
def attrsGood (a : List (String × String)) : Bool :=
  a.all fun kv => goodName kv.1 && goodText kv.2

mutual

/-- Trees with name tags, good attribute lists and good children: the
class of trees the builder produces, on which the serializer is injective
and parsing inverts it. -/
def goodElem : Elem → Bool
  | .mk t a cs => goodName t && attrsGood a && goodElems cs

/-- All trees in the list are good. -/
def goodElems : List Elem → Bool
  | [] => true
  | c :: cs => goodElem c && goodElems cs

end

/-- `takeWhile`/`dropWhile` on a satisfying block followed by a failing
character. -/
theorem takeWhile_dropWhile_all (p : Char → Bool) :
    ∀ (l : List Char) (d : Char) (rest : List Char), l.all p = true → p d = false →
      (l ++ d :: rest).takeWhile p = l ∧ (l ++ d :: rest).dropWhile p = d :: rest := by
  intro l
  induction l with
  | nil =>
    intro d rest _ hd
    simp [List.takeWhile_cons, List.dropWhile_cons, hd]
  | cons c tl ih =>
    intro d rest hall hd
    rw [List.all_cons, Bool.and_eq_true] at hall
    obtain ⟨ihtake, ihdrop⟩ := ih d rest hall.2 hd
    simp [List.takeWhile_cons, List.dropWhile_cons, hall.1, ihtake, ihdrop]

/-- `parseName` consumes exactly a good name when a non-name character
follows. -/
theorem parseName_roundtrip (nm : List Char) (d : Char) (rest : List Char)
    (h : goodNameChars nm = true) (hd : isNameChar d = false) :
    parseName (nm ++ d :: rest) = some (nm, d :: rest) := by
  cases nm with
  | nil => simp [goodNameChars] at h
  | cons c tl =>
    rw [goodNameChars, Bool.and_eq_true] at h
    obtain ⟨htake, hdrop⟩ := takeWhile_dropWhile_all isNameChar tl d rest h.2 hd
    simp [parseName, h.1, htake, hdrop]

/-- `skipWs` leaves a non-whitespace-headed list alone. -/
theorem skipWs_not_ws (c : Char) (l : List Char) (h : isXmlWs c = false) :
    skipWs (c :: l) = c :: l := by
  simp [skipWs, h]

/-- `skipWs` drops a whitespace head. -/
theorem skipWs_ws (c : Char) (l : List Char) (h : isXmlWs c = true) :
    skipWs (c :: l) = skipWs l := by
  simp [skipWs, h]

/-- Name-start characters are not XML whitespace. -/
theorem nameStart_not_ws (c : Char) (h : isNameStart c = true) : isXmlWs c = false := by
  by_contra hc
  have hws : isXmlWs c = true := by
    cases hx : isXmlWs c
    · exact absurd hx hc
    · rfl
  rw [isXmlWs] at hws
  rcases Bool.or_eq_true_iff.mp hws with h4 | h4
  · rcases Bool.or_eq_true_iff.mp h4 with h3 | h3
    · rcases Bool.or_eq_true_iff.mp h3 with h2 | h2
      · rw [decide_eq_true_eq] at h2; subst h2; exact absurd h (by decide)
      · rw [decide_eq_true_eq] at h2; subst h2; exact absurd h (by decide)
    · rw [decide_eq_true_eq] at h3; subst h3; exact absurd h (by decide)
  · rw [decide_eq_true_eq] at h4; subst h4; exact absurd h (by decide)

/-- Name-start characters are not the slash. -/
theorem nameStart_ne_slash (c : Char) (h : isNameStart c = true) : c ≠ '/' := by
  intro hc; subst hc; exact absurd h (by decide)

/-- Escaping never shortens a string. -/
theorem escList_length : ∀ l : List Char, l.length ≤ (escList l).length := by
  intro l
  induction l with
  | nil => simp [escList]
  | cons c tl ih =>
    have h1 : 1 ≤ (escapeAttribChar c).length := by
      rw [escapeAttribChar]
      split_ifs <;> simp
    simp only [escList, List.length_append, List.length_cons]
    omega

/-- One-step unfolding of `parseAttValue` on a cons cell. -/
theorem parseAttValue_cons (q : Char) (fuel : Nat) (c : Char) (rest : List Char) :
    parseAttValue q (fuel + 1) (c :: rest) =
      (if c = q then some ([], rest)
       else if c = '&' then
         match decodeRef rest with
         | some (ch, rest2) =>
           match parseAttValue q fuel rest2 with
           | some (v, r) => some (ch :: v, r)
           | none => none
         | none => none
       else if c = '<' then none
       else if validXmlChar c then
         match parseAttValue q fuel rest with
         | some (v, r) => some (c :: v, r)
         | none => none
       else none) := rfl

/-- Parsing inverts attribute-value escaping: a double-quoted, escaped
XML-legal value parses back to itself, leaving the text after the closing
quote untouched. -/
theorem parseAttValue_roundtrip :
    ∀ l : List Char, l.all validXmlChar = true →
      ∀ fuel : Nat, l.length + 1 ≤ fuel → ∀ rest : List Char,
        parseAttValue '"' fuel (escList l ++ '"' :: rest) = some (l, rest) := by
  intro l
  induction l with
  | nil =>
    intro _ fuel hfuel rest
    cases fuel with
    | zero => simp at hfuel
    | succ f => rfl
  | cons c tl ih =>
    intro hall fuel hfuel rest
    rw [List.all_cons, Bool.and_eq_true] at hall
    cases fuel with
    | zero => simp at hfuel
    | succ f =>
      have hf : tl.length + 1 ≤ f := by
        simp only [List.length_cons] at hfuel
        omega
      have ihr := ih hall.2 f hf rest
      by_cases h1 : c = '&'
      · subst h1
        show (match parseAttValue '"' f (escList tl ++ '"' :: rest) with
              | some (v, r) => some ('&' :: v, r)
              | none => none) = some ('&' :: tl, rest)
        rw [ihr]
      by_cases h2 : c = '<'
      · subst h2
        show (match parseAttValue '"' f (escList tl ++ '"' :: rest) with
              | some (v, r) => some ('<' :: v, r)
              | none => none) = some ('<' :: tl, rest)
        rw [ihr]
      by_cases h3 : c = '>'
      · subst h3
        show (match parseAttValue '"' f (escList tl ++ '"' :: rest) with
              | some (v, r) => some ('>' :: v, r)
              | none => none) = some ('>' :: tl, rest)
        rw [ihr]
      by_cases h4 : c = '"'
      · subst h4
        show (match parseAttValue '"' f (escList tl ++ '"' :: rest) with
              | some (v, r) => some ('"' :: v, r)
              | none => none) = some ('"' :: tl, rest)
        rw [ihr]
      by_cases h5 : c = '\r'
      · subst h5
        show (match parseAttValue '"' f (escList tl ++ '"' :: rest) with
              | some (v, r) => some ('\r' :: v, r)
              | none => none) = some ('\r' :: tl, rest)
        rw [ihr]
      by_cases h6 : c = '\n'
      · subst h6
        show (match parseAttValue '"' f (escList tl ++ '"' :: rest) with
              | some (v, r) => some ('\n' :: v, r)
              | none => none) = some ('\n' :: tl, rest)
        rw [ihr]
      by_cases h7 : c = '\t'
      · subst h7
        show (match parseAttValue '"' f (escList tl ++ '"' :: rest) with
              | some (v, r) => some ('\t' :: v, r)
              | none => none) = some ('\t' :: tl, rest)
        rw [ihr]
      · have e1 : escapeAttribChar c = [c] := by
          rw [escapeAttribChar]
          simp [h1, h2, h3, h4, h5, h6, h7]
        rw [show escList (c :: tl) = escapeAttribChar c ++ escList tl from rfl, e1,
          List.singleton_append, List.cons_append, parseAttValue_cons,
          if_neg h4, if_neg h1, if_neg h2, if_pos hall.1, ihr]

/-- Serialization never has fewer characters than attributes. -/
theorem serializeAttrs_length : ∀ a, a.length ≤ (serializeAttrs a).length := by
  intro a
  induction a with
  | nil => simp
  | cons kv tl ih =>
    obtain ⟨k, v⟩ := kv
    simp only [serializeAttrs, List.length_cons, List.length_append]
    omega

/-- One-step unfolding of `parseAttrs` at positive fuel. -/
theorem parseAttrs_succ (fuel : Nat) (s : List Char) :
    parseAttrs (fuel + 1) s =
      (match parseName (skipWs s) with
       | none => some ([], skipWs s)
       | some (nm, rest) =>
         match skipWs rest with
         | '=' :: rest2 =>
           (match skipWs rest2 with
            | q :: rest3 =>
              if q = '"' || q = '\'' then
                match parseAttValue q (rest3.length + 1) rest3 with
                | some (v, rest4) =>
                  (match parseAttrs fuel rest4 with
                   | some (attrs, r) => some ((String.mk nm, String.mk v) :: attrs, r)
                   | none => none)
                | none => none
              else none
            | [] => none)
         | _ => none) := rfl

/-- A string is its character list repackaged. -/
theorem string_eta (s : String) : String.mk s.data = s := rfl

/-- Parsing inverts attribute serialization: the attribute block followed
by a suffix whose whitespace-skipped head is not a name character parses
back to the attribute list, positioned at that head. -/
theorem parseAttrs_roundtrip :
    ∀ a : List (String × String), attrsGood a = true →
      ∀ fuel : Nat, a.length + 1 ≤ fuel →
        ∀ (suffix : List Char) (d : Char) (rest : List Char),
          skipWs suffix = d :: rest → isNameStart d = false →
          parseAttrs fuel (serializeAttrs a ++ suffix) = some (a, d :: rest) := by
  intro a
  induction a with
  | nil =>
    intro _ fuel hfuel suffix d rest hs hd
    cases fuel with
    | zero => simp at hfuel
    | succ f =>
      rw [show serializeAttrs [] ++ suffix = suffix from rfl, parseAttrs_succ, hs]
      simp [parseName, hd]
  | cons kv tl ih =>
    intro hgood fuel hfuel suffix d rest hs hd
    obtain ⟨k, v⟩ := kv
    rw [attrsGood, List.all_cons, Bool.and_eq_true] at hgood
    obtain ⟨hkv, htl⟩ := hgood
    rw [Bool.and_eq_true] at hkv
    obtain ⟨hk, hv⟩ := hkv
    cases fuel with
    | zero => simp at hfuel
    | succ f =>
      have hf : tl.length + 1 ≤ f := by
        simp only [List.length_cons] at hfuel
        omega
      cases hkd : k.data with
      | nil => rw [goodName, hkd] at hk; simp [goodNameChars] at hk
      | cons kc ktl =>
        have hkgood : goodNameChars (kc :: ktl) = true := by
          rw [goodName, hkd] at hk; exact hk
        have hkstart : isNameStart kc = true := by
          rw [goodNameChars, Bool.and_eq_true] at hkgood
          exact hkgood.1
        rw [show serializeAttrs ((k, v) :: tl) ++ suffix =
            ' ' :: (k.data ++ '=' :: '"' ::
              (escList v.data ++ '"' :: (serializeAttrs tl ++ suffix))) from by
          simp [serializeAttrs, List.append_assoc]]
        rw [parseAttrs_succ]
        rw [show skipWs (' ' :: (k.data ++ '=' :: '"' ::
              (escList v.data ++ '"' :: (serializeAttrs tl ++ suffix)))) =
            k.data ++ '=' :: '"' ::
              (escList v.data ++ '"' :: (serializeAttrs tl ++ suffix)) from by
          rw [skipWs_ws ' ' _ (by decide), hkd, List.cons_append,
            skipWs_not_ws kc _ (nameStart_not_ws kc hkstart), ← List.cons_append]]
        rw [show parseName (k.data ++ '=' :: '"' ::
              (escList v.data ++ '"' :: (serializeAttrs tl ++ suffix))) =
            some (k.data, '=' :: '"' ::
              (escList v.data ++ '"' :: (serializeAttrs tl ++ suffix))) from by
          rw [hkd]
          exact parseName_roundtrip (kc :: ktl) '=' _ hkgood (by decide)]
        have hval : parseAttValue '"'
            ((escList v.data ++ '"' :: (serializeAttrs tl ++ suffix)).length + 1)
            (escList v.data ++ '"' :: (serializeAttrs tl ++ suffix)) =
            some (v.data, serializeAttrs tl ++ suffix) := by
          apply parseAttValue_roundtrip v.data hv
          have := escList_length v.data
          simp only [List.length_append, List.length_cons]
          omega
        have hrec : parseAttrs f (serializeAttrs tl ++ suffix) = some (tl, d :: rest) :=
          ih htl f hf suffix d rest hs hd
        simp only [skipWs_not_ws '=' _ (by decide), skipWs_not_ws '"' _ (by decide)]
        simp only [List.length_append, List.length_cons] at hval ⊢
        simp [hval, hrec, string_eta]

mutual

/-- Fuel needed by `parseElem` on this element's serialization. -/
def elemSize : Elem → Nat
  | .mk _ _ cs => 1 + elemsSize cs

/-- Fuel needed by `parseChildren` on this list's serialization. -/
def elemsSize : List Elem → Nat
  | [] => 1
  | c :: cs => 1 + elemSize c + elemsSize cs

end

/-- The serialization is longer than the fuel requirement. -/
theorem elemSize_le_serialized :
    (∀ e : Elem, elemSize e + 1 ≤ (serializeElem e).length) ∧
    (∀ es : List Elem, elemsSize es ≤ (serializeElems es).length + 1) := by
  apply elem_mutual_ind
    (fun e => elemSize e + 1 ≤ (serializeElem e).length)
    (fun es => elemsSize es ≤ (serializeElems es).length + 1)
  · intro t a cs hcs
    cases cs with
    | nil =>
      simp only [elemSize, elemsSize, serializeElem, List.length_cons, List.length_append]
      omega
    | cons c cs2 =>
      simp only [elemSize, serializeElem, List.length_cons, List.length_append] at hcs ⊢
      omega
  · simp [elemsSize, serializeElems]
  · intro c cs hc hcs
    simp only [elemsSize, serializeElems, List.length_append] at hc hcs ⊢
    omega

/-- One-step unfolding of `parseElem` at an angle bracket. -/
theorem parseElem_succ_lt (fuel : Nat) (x : List Char) :
    parseElem (fuel + 1) ('<' :: x) =
      (match parseName x with
       | none => none
       | some (tagC, rest1) =>
         match parseAttrs (rest1.length + 1) rest1 with
         | none => none
         | some (attrs, rest2) =>
           match rest2 with
           | '/' :: '>' :: rest3 => some (Elem.mk (String.mk tagC) attrs [], rest3)
           | '>' :: rest3 =>
             match parseChildren fuel rest3 with
             | none => none
             | some (cs, rest4) =>
               match rest4 with
               | '<' :: '/' :: rest5 =>
                 match parseName rest5 with
                 | some (closeC, rest6) =>
                   if closeC = tagC then
                     match skipWs rest6 with
                     | '>' :: rest7 => some (Elem.mk (String.mk tagC) attrs cs, rest7)
                     | _ => none
                   else none
                 | none => none
               | _ => none
           | _ => none) := rfl

/-- One-step unfolding of `parseChildren` at an angle bracket. -/
theorem parseChildren_succ_lt (fuel : Nat) (c2 : Char) (rest2 : List Char) :
    parseChildren (fuel + 1) ('<' :: c2 :: rest2) =
      (if c2 = '/' then some ([], '<' :: c2 :: rest2)
       else
         match parseElem fuel ('<' :: c2 :: rest2) with
         | none => none
         | some (e, rest) =>
           match parseChildren fuel rest with
           | none => none
           | some (es, rest3) => some (e :: es, rest3)) := rfl

/-- The attribute block followed by a non-name-character head always has a
non-name-character head itself (a space when attributes exist). -/
theorem serAttrs_head (a : List (String × String)) (z0 : Char) (z : List Char)
    (hz : isNameChar z0 = false) :
    ∃ d w, serializeAttrs a ++ z0 :: z = d :: w ∧ isNameChar d = false := by
  cases a with
  | nil => exact ⟨z0, z, rfl, hz⟩
  | cons kv tl =>
    obtain ⟨k, v⟩ := kv
    exact ⟨' ', _, rfl, by decide⟩

/-- A good element's serialization opens with `<` and a name-start
character. -/
theorem serializeElem_shape (e : Elem) (h : goodElem e = true) :
    ∃ t0 w, serializeElem e = '<' :: t0 :: w ∧ isNameStart t0 = true := by
  obtain ⟨t, a, cs⟩ := e
  rw [goodElem, Bool.and_eq_true, Bool.and_eq_true] at h
  obtain ⟨⟨ht, _⟩, _⟩ := h
  cases htd : t.data with
  | nil => rw [goodName, htd] at ht; simp [goodNameChars] at ht
  | cons t0 ttl =>
    have ht0 : isNameStart t0 = true := by
      rw [goodName, htd, goodNameChars, Bool.and_eq_true] at ht
      exact ht.1
    cases cs with
    | nil =>
      refine ⟨t0, ttl ++ serializeAttrs a ++ [' ', '/', '>'], ?_, ht0⟩
      rw [serializeElem, htd]
      simp [List.cons_append, List.append_assoc]
    | cons c cs2 =>
      refine ⟨t0, ttl ++ serializeAttrs a ++ '>' ::
        (serializeElems (c :: cs2) ++ '<' :: '/' :: ((t0 :: ttl) ++ ['>'])), ?_, ht0⟩
      rw [serializeElem, htd]
      simp [List.cons_append, List.append_assoc]

/-- Parsing inverts serialization on good elements: the element parser
consumes exactly the serialized element, and the child parser consumes
exactly the serialized sibling list up to the following end tag. -/
theorem parse_inverts_serialize :
    (∀ e : Elem, goodElem e = true → ∀ (fuel : Nat) (rest : List Char),
      elemSize e ≤ fuel →
      parseElem fuel (serializeElem e ++ rest) = some (e, rest)) ∧
    (∀ es : List Elem, goodElems es = true → ∀ (fuel : Nat) (rest : List Char),
      elemsSize es ≤ fuel →
      parseChildren fuel (serializeElems es ++ '<' :: '/' :: rest) =
        some (es, '<' :: '/' :: rest)) := by
  apply elem_mutual_ind
    (fun e => goodElem e = true → ∀ (fuel : Nat) (rest : List Char),
      elemSize e ≤ fuel →
      parseElem fuel (serializeElem e ++ rest) = some (e, rest))
    (fun es => goodElems es = true → ∀ (fuel : Nat) (rest : List Char),
      elemsSize es ≤ fuel →
      parseChildren fuel (serializeElems es ++ '<' :: '/' :: rest) =
        some (es, '<' :: '/' :: rest))
  · intro t a cs ihQ hgood fuel rest hfuel
    rw [goodElem, Bool.and_eq_true, Bool.and_eq_true] at hgood
    obtain ⟨⟨ht, ha⟩, hcs⟩ := hgood
    cases fuel with
    | zero => simp only [elemSize] at hfuel; omega
    | succ f =>
      have htnc : goodNameChars t.data = true := ht
      cases cs with
      | nil =>
        rw [show serializeElem (Elem.mk t a []) ++ rest =
            '<' :: (t.data ++ (serializeAttrs a ++ ' ' :: '/' :: '>' :: rest)) from by
          rw [serializeElem]; simp [List.append_assoc]]
        rw [parseElem_succ_lt]
        have hname : parseName (t.data ++ (serializeAttrs a ++ ' ' :: '/' :: '>' :: rest)) =
            some (t.data, serializeAttrs a ++ ' ' :: '/' :: '>' :: rest) := by
          obtain ⟨d0, w0, hw, hd0⟩ := serAttrs_head a ' ' ('/' :: '>' :: rest) (by decide)
          rw [hw]
          exact parseName_roundtrip t.data d0 w0 htnc hd0
        rw [hname]
        have hattrs : parseAttrs
            ((serializeAttrs a ++ ' ' :: '/' :: '>' :: rest).length + 1)
            (serializeAttrs a ++ ' ' :: '/' :: '>' :: rest) =
            some (a, '/' :: '>' :: rest) := by
          apply parseAttrs_roundtrip a ha _ ?_ (' ' :: '/' :: '>' :: rest) '/' ('>' :: rest)
            ?_ (by decide)
          · have := serializeAttrs_length a
            simp only [List.length_append, List.length_cons]
            omega
          · rw [skipWs_ws ' ' _ (by decide), skipWs_not_ws '/' _ (by decide)]
        simp only [hattrs]
      | cons c cs2 =>
        rw [show serializeElem (Elem.mk t a (c :: cs2)) ++ rest =
            '<' :: (t.data ++ (serializeAttrs a ++ '>' ::
              (serializeElems (c :: cs2) ++ '<' :: '/' :: (t.data ++ '>' :: rest)))) from by
          rw [serializeElem]; simp [List.append_assoc]]
        rw [parseElem_succ_lt]
        have hname : parseName (t.data ++ (serializeAttrs a ++ '>' ::
            (serializeElems (c :: cs2) ++ '<' :: '/' :: (t.data ++ '>' :: rest)))) =
            some (t.data, serializeAttrs a ++ '>' ::
              (serializeElems (c :: cs2) ++ '<' :: '/' :: (t.data ++ '>' :: rest))) := by
          obtain ⟨d0, w0, hw, hd0⟩ := serAttrs_head a '>'
            (serializeElems (c :: cs2) ++ '<' :: '/' :: (t.data ++ '>' :: rest)) (by decide)
          rw [hw]
          exact parseName_roundtrip t.data d0 w0 htnc hd0
        rw [hname]
        have hattrs : parseAttrs
            ((serializeAttrs a ++ '>' ::
              (serializeElems (c :: cs2) ++ '<' :: '/' :: (t.data ++ '>' :: rest))).length + 1)
            (serializeAttrs a ++ '>' ::
              (serializeElems (c :: cs2) ++ '<' :: '/' :: (t.data ++ '>' :: rest))) =
            some (a, '>' ::
              (serializeElems (c :: cs2) ++ '<' :: '/' :: (t.data ++ '>' :: rest))) := by
          apply parseAttrs_roundtrip a ha _ ?_ _ '>' _ ?_ (by decide)
          · have := serializeAttrs_length a
            simp only [List.length_append, List.length_cons]
            omega
          · rw [skipWs_not_ws '>' _ (by decide)]
        simp only [hattrs]
        have hkids : parseChildren f
            (serializeElems (c :: cs2) ++ '<' :: '/' :: (t.data ++ '>' :: rest)) =
            some (c :: cs2, '<' :: '/' :: (t.data ++ '>' :: rest)) := by
          apply ihQ hcs f (t.data ++ '>' :: rest)
          simp only [elemSize] at hfuel
          omega
        simp only [hkids]
        have hclose : parseName (t.data ++ '>' :: rest) = some (t.data, '>' :: rest) :=
          parseName_roundtrip t.data '>' rest htnc (by decide)
        simp only [hclose]
        rw [skipWs_not_ws '>' _ (by decide)]
        simp [string_eta]
  · intro _ fuel rest hfuel
    cases fuel with
    | zero => simp only [elemsSize] at hfuel; omega
    | succ f =>
      show parseChildren (f + 1) ('<' :: '/' :: rest) = some ([], '<' :: '/' :: rest)
      rw [parseChildren_succ_lt, if_pos rfl]
  · intro c cs ihP ihQ hgood fuel rest hfuel
    rw [goodElems, Bool.and_eq_true] at hgood
    obtain ⟨hc, hcs⟩ := hgood
    cases fuel with
    | zero => simp only [elemsSize] at hfuel; omega
    | succ f =>
      obtain ⟨t0, w, hser, ht0⟩ := serializeElem_shape c hc
      rw [show serializeElems (c :: cs) ++ '<' :: '/' :: rest =
          '<' :: t0 :: (w ++ (serializeElems cs ++ '<' :: '/' :: rest)) from by
        rw [serializeElems, hser]; simp [List.append_assoc]]
      rw [parseChildren_succ_lt, if_neg (nameStart_ne_slash t0 ht0)]
      have hP : parseElem f ('<' :: t0 :: (w ++ (serializeElems cs ++ '<' :: '/' :: rest))) =
          some (c, serializeElems cs ++ '<' :: '/' :: rest) := by
        rw [show ('<' :: t0 :: (w ++ (serializeElems cs ++ '<' :: '/' :: rest))) =
            serializeElem c ++ (serializeElems cs ++ '<' :: '/' :: rest) from by
          rw [hser]; simp]
        apply ihP hc f _
        simp only [elemsSize] at hfuel
        omega
      rw [hP]
      have hQ : parseChildren f (serializeElems cs ++ '<' :: '/' :: rest) =
          some (cs, '<' :: '/' :: rest) := by
        apply ihQ hcs f rest
        simp only [elemsSize] at hfuel
        omega
      simp [hQ]

/-- Parsing a good element's serialization gives back the element. -/
theorem fromstring_serializeElem (e : Elem) (h : goodElem e = true) :
    fromstring (String.mk (serializeElem e)) = some e := by
  obtain ⟨t0, w, hser, ht0⟩ := serializeElem_shape e h
  have hskip : skipWs (serializeElem e) = serializeElem e := by
    rw [hser]; exact skipWs_not_ws '<' _ (by decide)
  have hparse : parseElem ((serializeElem e).length + 1) (serializeElem e ++ []) =
      some (e, []) := by
    apply parse_inverts_serialize.1 e h
    have := elemSize_le_serialized.1 e
    omega
  rw [List.append_nil] at hparse
  simp [fromstring, hskip, hparse, skipWs]

/-- Optional string arguments whose value, when present, is XML-legal. -/
def optGood : Option String → Bool
  | some s => goodText s
  | none => true

/-- Builder calls all of whose string arguments are XML-legal text. -/
def Op.good : Op → Bool
  | .select attrs => attrs.all goodText
  | .link_entity n a f t lt =>
    goodText n && optGood a && optGood f && optGood t && optGood lt
  | .add_filter a o v => goodText a && goodText o && goodText v.pyStr
  | .add_order a _ => goodText a
  | .add_aggregate a al t => goodText a && goodText al && goodText t
  | .add_group_by attrs => attrs.all goodText

/-- Concatenation preserves XML-legal text. -/
theorem goodText_append (x y : String) (hx : goodText x = true) (hy : goodText y = true) :
    goodText (x ++ y) = true := by
  rw [goodText] at *
  rw [show (x ++ y).data = x.data ++ y.data from rfl, List.all_append, hx, hy]
  rfl

/-- Truthiness defaulting preserves XML-legal text. -/
theorem orDefault_good (o : Option String) (d : String)
    (ho : optGood o = true) (hd : goodText d = true) :
    goodText (orDefault o d) = true := by
  cases o with
  | none => exact hd
  | some s =>
    rw [orDefault]
    split
    · exact hd
    · exact ho

/-- Goodness distributes over child-list concatenation. -/
theorem goodElems_append :
    ∀ l m : List Elem, goodElems l = true → goodElems m = true →
      goodElems (l ++ m) = true := by
  intro l
  induction l with
  | nil => intro m _ hm; exact hm
  | cons c cs ih =>
    intro m hl hm
    rw [goodElems, Bool.and_eq_true] at hl
    rw [List.cons_append, goodElems, Bool.and_eq_true]
    exact ⟨hl.1, ih m hl.2 hm⟩

/-- Selection elements built from XML-legal names are good. -/
theorem goodElems_map_selAttr (l : List String) (h : l.all goodText = true) :
    goodElems (l.map selAttrElem) = true := by
  induction l with
  | nil => rfl
  | cons a tl ih =>
    rw [List.all_cons, Bool.and_eq_true] at h
    rw [List.map_cons, goodElems, Bool.and_eq_true]
    refine ⟨?_, ih h.2⟩
    simp [selAttrElem, goodElem, attrsGood, goodElems, h.1,
      show goodName "attribute" = true from by decide,
      show goodName "name" = true from by decide]

/-- Group-by elements built from XML-legal names are good. -/
theorem goodElems_map_groupBy (l : List String) (h : l.all goodText = true) :
    goodElems (l.map groupByElem) = true := by
  induction l with
  | nil => rfl
  | cons a tl ih =>
    rw [List.all_cons, Bool.and_eq_true] at h
    rw [List.map_cons, goodElems, Bool.and_eq_true]
    refine ⟨?_, ih h.2⟩
    simp [groupByElem, goodElem, attrsGood, goodElems, h.1,
      show goodName "attribute" = true from by decide,
      show goodName "name" = true from by decide,
      show goodName "groupby" = true from by decide,
      show goodText "true" = true from by decide]

/-- Appending a good condition into the filter child preserves goodness. -/
theorem appendCondToFilter_good (cond : Elem) (hcond : goodElem cond = true) :
    ∀ l : List Elem, goodElems l = true →
      goodElems (appendCondToFilter cond l) = true := by
  intro l
  induction l with
  | nil => intro _; rfl
  | cons c cs ih =>
    intro hl
    rw [goodElems, Bool.and_eq_true] at hl
    obtain ⟨hc, hcs⟩ := hl
    rw [appendCondToFilter]
    split
    · rw [goodElems, Bool.and_eq_true]
      refine ⟨?_, hcs⟩
      obtain ⟨t, a, kids⟩ := c
      rw [goodElem, Bool.and_eq_true, Bool.and_eq_true] at hc
      rw [Elem.tag, Elem.attrib, Elem.children, goodElem, Bool.and_eq_true,
        Bool.and_eq_true]
      exact ⟨hc.1, goodElems_append kids [cond] hc.2
        (by rw [goodElems, hcond]; rfl)⟩
    · rw [goodElems, Bool.and_eq_true]
      exact ⟨hc, ih hcs⟩

/-- Every good builder call keeps the entity's children good and the
entity name unchanged. -/
theorem runOp_preserves (b : XMLQueryBuilder) (op : Op)
    (hb : goodElems b.entityChildren = true) (hop : op.good = true) :
    goodElems (runOp b op).entityChildren = true ∧
    (runOp b op).root_entity_name = b.root_entity_name := by
  cases op with
  | select attrs =>
    by_cases hall : attrs = ["ALL"]
    · subst hall
      constructor
      · rw [show (runOp b (Op.select ["ALL"])).entityChildren =
            b.entityChildren ++ [Elem.mk "all-attributes" [] []] from
          select_all_single_marker b]
        exact goodElems_append _ _ hb (by decide)
      · simp [runOp, XMLQueryBuilder.select]
    · obtain ⟨hc, _, hn⟩ := select_spec attrs hall b
      rw [Op.good] at hop
      constructor
      · rw [show (runOp b (Op.select attrs)).entityChildren =
            b.entityChildren ++ attrs.map selAttrElem from hc]
        exact goodElems_append _ _ hb (goodElems_map_selAttr attrs hop)
      · exact hn
  | link_entity n a f t lt =>
    rw [Op.good, Bool.and_eq_true, Bool.and_eq_true, Bool.and_eq_true,
      Bool.and_eq_true] at hop
    obtain ⟨⟨⟨⟨hn, ha⟩, hf⟩, ht⟩, hlt⟩ := hop
    constructor
    · rw [show (runOp b (Op.link_entity n a f t lt)).entityChildren =
          b.entityChildren ++
            [Elem.mk "link-entity"
              [("name", n), ("alias", orDefault a n),
               ("from", orDefault f (n ++ "id")), ("to", orDefault t (n ++ "id")),
               ("link-type", orDefault lt "inner")] []] from rfl]
      apply goodElems_append _ _ hb
      have hid : goodText (n ++ "id") = true :=
        goodText_append n "id" hn (by decide)
      simp [goodElems, goodElem, attrsGood, hn,
        orDefault_good a n ha hn,
        orDefault_good f (n ++ "id") hf hid,
        orDefault_good t (n ++ "id") ht hid,
        orDefault_good lt "inner" hlt (by decide),
        show goodName "link-entity" = true from by decide,
        show goodName "name" = true from by decide,
        show goodName "alias" = true from by decide,
        show goodName "from" = true from by decide,
        show goodName "to" = true from by decide,
        show goodName "link-type" = true from by decide]
    · rfl
  | add_order a d =>
    rw [Op.good] at hop
    constructor
    · apply goodElems_append _ _ hb
      cases d <;>
        simp [goodElems, goodElem, attrsGood, hop,
          show goodName "order" = true from by decide,
          show goodName "attribute" = true from by decide,
          show goodName "descending" = true from by decide,
          show goodText "true" = true from by decide,
          show goodText "false" = true from by decide]
    · rfl
  | add_aggregate a al t =>
    rw [Op.good, Bool.and_eq_true, Bool.and_eq_true] at hop
    obtain ⟨⟨ha, hal⟩, ht⟩ := hop
    constructor
    · apply goodElems_append _ _ hb
      simp [goodElems, goodElem, attrsGood, ha, hal, ht,
        show goodName "attribute" = true from by decide,
        show goodName "name" = true from by decide,
        show goodName "alias" = true from by decide,
        show goodName "aggregate" = true from by decide]
    · rfl
  | add_group_by attrs =>
    obtain ⟨hc, _, hn⟩ := add_group_by_spec attrs b
    rw [Op.good] at hop
    constructor
    · rw [show (runOp b (Op.add_group_by attrs)).entityChildren =
          b.entityChildren ++ attrs.map groupByElem from hc]
      exact goodElems_append _ _ hb (goodElems_map_groupBy attrs hop)
    · exact hn
  | add_filter a o v =>
    rw [Op.good, Bool.and_eq_true, Bool.and_eq_true] at hop
    obtain ⟨⟨ha, ho⟩, hv⟩ := hop
    have hcond : goodElem (condElem a o v.pyStr) = true := by
      simp [condElem, goodElem, attrsGood, goodElems, ha, ho, hv,
        show goodName "condition" = true from by decide,
        show goodName "attribute" = true from by decide,
        show goodName "operator" = true from by decide,
        show goodName "value" = true from by decide]
    have hfilterElem : goodElems [Elem.mk "filter" [("type", "and")] []] = true := by
      decide
    constructor
    · rw [show (runOp b (Op.add_filter a o v)).entityChildren =
          appendCondToFilter (condElem a o v.pyStr)
            (if b.hasFilter then b.entityChildren
             else b.entityChildren ++ [Elem.mk "filter" [("type", "and")] []]) from by
        rw [runOp, XMLQueryBuilder.add_filter]
        cases hbf : b.hasFilter <;> simp [hbf]]
      apply appendCondToFilter_good _ hcond
      by_cases hbf : b.hasFilter = true
      · rw [if_pos hbf]
        exact hb
      · rw [if_neg hbf]
        exact goodElems_append _ _ hb hfilterElem
    · rw [runOp, XMLQueryBuilder.add_filter]
      cases hbf : b.hasFilter <;> simp [hbf]

/-- Good call sequences keep the children good and the entity name fixed. -/
theorem runOps_preserves :
    ∀ (ops : List Op) (b : XMLQueryBuilder),
      goodElems b.entityChildren = true → ops.all Op.good = true →
      goodElems (runOps b ops).entityChildren = true ∧
      (runOps b ops).root_entity_name = b.root_entity_name := by
  intro ops
  induction ops with
  | nil => intro b hb _; exact ⟨hb, rfl⟩
  | cons op tl ih =>
    intro b hb hops
    rw [List.all_cons, Bool.and_eq_true] at hops
    obtain ⟨hgood, hname⟩ := runOp_preserves b op hb hops.1
    obtain ⟨hg2, hn2⟩ := ih (runOp b op) hgood hops.2
    refine ⟨?_, ?_⟩
    · rw [show runOps b (op :: tl) = runOps (runOp b op) tl from by
        simp [runOps, List.foldl_cons]]
      exact hg2
    · rw [show runOps b (op :: tl) = runOps (runOp b op) tl from by
        simp [runOps, List.foldl_cons]]
      rw [hn2, hname]

/-- The root tree of a builder driven by good calls from a good entity
name is a good element. -/
theorem rootElem_good (name : String) (ops : List Op)
    (hn : goodText name = true) (hops : ops.all Op.good = true) :
    goodElem (runOps (XMLQueryBuilder.init name) ops).rootElem = true := by
  obtain ⟨hch, hnm⟩ := runOps_preserves ops (XMLQueryBuilder.init name) (by rfl) hops
  rw [XMLQueryBuilder.rootElem, XMLQueryBuilder.entityElem, hnm]
  simp [goodElem, goodElems, attrsGood, hch, hn,
    show goodName "fetch" = true from by decide,
    show goodName "entity" = true from by decide,
    show goodName "name" = true from by decide,
    show (XMLQueryBuilder.init name).root_entity_name = name from rfl]

/-- C1 (amended): for a Document built purely via builder calls whose
string arguments (including the root entity name) consist of XML-legal
characters, `to_string(pretty=False)` produces the serialization of the
root tree, and feeding that text to `add_fetch_xml` on any builder
reproduces exactly the original tree — same labels, attribute lists and
child order — with the entity reference pointing at its `entity` child. -/
theorem roundtrip_good_ops (name : String) (ops : List Op) (st : RawState)
    (hn : goodText name = true) (hops : ops.all Op.good = true) :
    (to_string (runOps (XMLQueryBuilder.init name) ops).toRaw false).1 =
      some (String.mk (serializeElem (runOps (XMLQueryBuilder.init name) ops).rootElem)) ∧
    add_fetch_xml st
        (String.mk (serializeElem (runOps (XMLQueryBuilder.init name) ops).rootElem)) =
      .ok { st with
              root := (runOps (XMLQueryBuilder.init name) ops).rootElem,
              entity := some (runOps (XMLQueryBuilder.init name) ops).entityElem } := by
  refine ⟨rfl, ?_⟩
  have hgood : goodElem (runOps (XMLQueryBuilder.init name) ops).rootElem = true :=
    rootElem_good name ops hn hops
  have hparse := fromstring_serializeElem _ hgood
  rw [add_fetch_xml, hparse]
  have hfind : findEntityInList (runOps (XMLQueryBuilder.init name) ops).rootElem.children =
      some (runOps (XMLQueryBuilder.init name) ops).entityElem := by
    rw [show (runOps (XMLQueryBuilder.init name) ops).rootElem.children =
        [(runOps (XMLQueryBuilder.init name) ops).entityElem] from rfl, findEntityInList]
    simp [XMLQueryBuilder.entityElem, Elem.tag]
  simp [hfind]

/-- C1 witness: a concrete chain of all six builder calls round-trips. -/
theorem roundtrip_good_ops_witness :
    goodText "account" = true ∧
    ([Op.select ["name", "accountid"],
      Op.link_entity "contact" (some "c") (some "contactid") (some "primarycontactid") none,
      Op.add_filter "name" "eq" (.vstr "Contoso"),
      Op.add_order "name" true,
      Op.add_aggregate "revenue" "total_revenue" "sum",
      Op.add_group_by ["industry"]].all Op.good) = true ∧
    add_fetch_xml (XMLQueryBuilder.init "x").toRaw
        (String.mk (serializeElem (runOps (XMLQueryBuilder.init "account")
          [Op.select ["name", "accountid"],
           Op.link_entity "contact" (some "c") (some "contactid") (some "primarycontactid") none,
           Op.add_filter "name" "eq" (.vstr "Contoso"),
           Op.add_order "name" true,
           Op.add_aggregate "revenue" "total_revenue" "sum",
           Op.add_group_by ["industry"]]).rootElem)) =
      .ok { (XMLQueryBuilder.init "x").toRaw with
              root := (runOps (XMLQueryBuilder.init "account")
                [Op.select ["name", "accountid"],
                 Op.link_entity "contact" (some "c") (some "contactid") (some "primarycontactid") none,
                 Op.add_filter "name" "eq" (.vstr "Contoso"),
                 Op.add_order "name" true,
                 Op.add_aggregate "revenue" "total_revenue" "sum",
                 Op.add_group_by ["industry"]]).rootElem,
              entity := some (runOps (XMLQueryBuilder.init "account")
                [Op.select ["name", "accountid"],
                 Op.link_entity "contact" (some "c") (some "contactid") (some "primarycontactid") none,
                 Op.add_filter "name" "eq" (.vstr "Contoso"),
                 Op.add_order "name" true,
                 Op.add_aggregate "revenue" "total_revenue" "sum",
                 Op.add_group_by ["industry"]]).entityElem } :=
  ⟨by decide, by decide,
    (roundtrip_good_ops "account"
      [Op.select ["name", "accountid"],
       Op.link_entity "contact" (some "c") (some "contactid") (some "primarycontactid") none,
       Op.add_filter "name" "eq" (.vstr "Contoso"),
       Op.add_order "name" true,
       Op.add_aggregate "revenue" "total_revenue" "sum",
       Op.add_group_by ["industry"]]
      (XMLQueryBuilder.init "x").toRaw (by decide) (by decide)).2⟩

set_option maxRecDepth 20000 in
/-- C1 counterexample: the round trip as stated, quantified over all
builder-call sequences, fails — a filter value containing the NUL
character serializes unescaped, and re-parsing the result raises a parse
error instead of reproducing the tree. -/
theorem roundtrip_fails_on_nul :
    (to_string ((XMLQueryBuilder.init "account").add_filter "statecode" "eq"
        (.vstr (String.mk ['\x00']))).toRaw false).1 =
      some (String.mk (serializeElem ((XMLQueryBuilder.init "account").add_filter
        "statecode" "eq" (.vstr (String.mk ['\x00']))).rootElem)) ∧
    add_fetch_xml (XMLQueryBuilder.init "account").toRaw
        (String.mk (serializeElem ((XMLQueryBuilder.init "account").add_filter
          "statecode" "eq" (.vstr (String.mk ['\x00']))).rootElem)) =
      .error .parseError := by
  constructor
  · rfl
  · rfl
